import Mathlib

/-!
# Color-Palette-Applier: palette remapping (`src/main.c`)

A shallow embedding of `loadPalette`, `findClosestColor`, `remapImageColors`
and the command-line path of `main`, followed by the properties of the
specification that concern them.

Conventions of the embedding:
* `Uint8` values are natural numbers below 256 (`Color.valid`); `Uint32`
  values are natural numbers reduced modulo `2 ^ 32` where the C code
  converts to that type; `int` values that can be negative are integers.
* the pixel memory of a surface is a list of bytes; every load and store is
  recorded in an access log, so that the addresses the code visits can be
  stated.
* `SDL_BYTEORDER == SDL_BIG_ENDIAN` is the boolean parameter `bigEndian`.
-/

namespace PaletteApplier

/-! ## Data model -/

/-- The struct `Color` of `main.c` (lines 34-36): four `Uint8` channels. -/
structure Color where
  r : Nat
  g : Nat
  b : Nat
  a : Nat
deriving DecidableEq

instance : Inhabited Color := ⟨⟨0, 0, 0, 0⟩⟩

/-- The channels of a color fit the type `Uint8`. -/
def Color.valid (c : Color) : Prop :=
  c.r < 256 ∧ c.g < 256 ∧ c.b < 256 ∧ c.a < 256

instance (c : Color) : Decidable c.valid := by
  unfold Color.valid
  exact inferInstance

/-! ## Nearest-color matcher -/

/-- The value `dr * dr + dg * dg + db * db` computed in the loop body of
`findClosestColor` (lines 69-72) for the palette entry `p` and the color `c`. -/
def sqDist (p c : Color) : Int :=
  let dr : Int := (p.r : Int) - (c.r : Int)
  let dg : Int := (p.g : Int) - (c.g : Int)
  let db : Int := (p.b : Int) - (c.b : Int)
  dr * dr + dg * dg + db * db

/-- One iteration of the loop of `findClosestColor` (lines 69-76); the state is
the pair `(closestIndex, minDistance)`. -/
def closestStep (palette : List Color) (color : Color) (st : Nat × Int) (i : Nat) : Nat × Int :=
  let distance := sqDist (palette.getD i default) color
  if distance < st.2 then (i, distance) else st

/-- The state `(closestIndex, minDistance)` after the first `n` iterations of
the loop of `findClosestColor`. -/
def closestLoop (palette : List Color) (color : Color) (n : Nat) : Nat × Int :=
  (List.range n).foldl (closestStep palette color) (0, 255 * 255 * 3)

/-- The function `findClosestColor` (lines 64-79). -/
def findClosestColor (palette : List Color) (paletteSize : Nat) (color : Color) : Nat :=
  (closestLoop palette color paletteSize).1

/-! ## Pixel formats and surfaces -/

/-- Modelled from the spec: the channel decomposition of an `SDL_PixelFormat`.
The functions `SDL_GetRGBA` and `SDL_MapRGBA` belong to the SDL library, whose
code is not in the repository; the spec treats them as a pure function
`unpack(sample) -> Color` and its inverse `pack(Color) -> sample`, selected by
the format of the buffer. `BytesPerPixel` is the field read at line 95. -/
structure PixelFormat where
  BytesPerPixel : Nat
  unpack : Nat → Color
  pack : Nat → Nat → Nat → Nat → Nat

/-- The fields of an `SDL_Surface` that the program uses: `w`, `h`, `pitch`
(bytes per row), `format` and the byte region `pixels`. -/
structure Surface where
  w : Nat
  h : Nat
  pitch : Nat
  format : PixelFormat
  pixels : List Nat

/-- The call `SDL_GetRGBA(pixel, format, &r, &g, &b, &a)`: the four results are
stored in `Uint8` variables. -/
def SDL_GetRGBA (pixel : Nat) (format : PixelFormat) : Color :=
  let c := format.unpack pixel
  ⟨c.r % 256, c.g % 256, c.b % 256, c.a % 256⟩

/-- The call `SDL_MapRGBA(format, r, g, b, a)`: four `Uint8` arguments, a
`Uint32` result. -/
def SDL_MapRGBA (format : PixelFormat) (r g b a : Nat) : Nat :=
  format.pack (r % 256) (g % 256) (b % 256) (a % 256) % 2 ^ 32

/-! ## Pixel memory with an access log -/

/-- Pixel memory during a run: the bytes, and the offsets (relative to
`pixels`) of every byte loaded or stored so far, in program order. -/
structure Mem where
  bytes : List Nat
  log : List Nat

/-- Load of the byte at offset `off`. -/
def Mem.load (m : Mem) (off : Nat) : Nat × Mem :=
  (m.bytes.getD off 0, { bytes := m.bytes, log := m.log ++ [off] })

/-- Store of the low eight bits of `v` into the byte at offset `off`. -/
def Mem.store (m : Mem) (off : Nat) (v : Nat) : Mem :=
  { bytes := m.bytes.set off (v % 256), log := m.log ++ [off] }

/-- The first `switch (bpp)` of `remapImageColors` (lines 104-122): the sample
of the pixel whose bytes start at offset `p`. The 2-byte and 4-byte cases are
loads of a `Uint16` and a `Uint32` in the byte order of the machine. -/
def readPixel (bigEndian : Bool) (bpp : Nat) (m : Mem) (p : Nat) : Nat × Mem :=
  match bpp with
  | 1 => m.load p
  | 2 =>
    let (p0, m1) := m.load p
    let (p1, m2) := m1.load (p + 1)
    (if bigEndian then (p0 <<< 8) ||| p1 else p0 ||| (p1 <<< 8), m2)
  | 3 =>
    let (p0, m1) := m.load p
    let (p1, m2) := m1.load (p + 1)
    let (p2, m3) := m2.load (p + 2)
    (if bigEndian then (p0 <<< 16) ||| (p1 <<< 8) ||| p2
     else p0 ||| (p1 <<< 8) ||| (p2 <<< 16), m3)
  | 4 =>
    let (p0, m1) := m.load p
    let (p1, m2) := m1.load (p + 1)
    let (p2, m3) := m2.load (p + 2)
    let (p3, m4) := m3.load (p + 3)
    (if bigEndian then (p0 <<< 24) ||| (p1 <<< 16) ||| (p2 <<< 8) ||| p3
     else p0 ||| (p1 <<< 8) ||| (p2 <<< 16) ||| (p3 <<< 24), m4)
  | _ => (0, m)

/-- The second `switch (bpp)` of `remapImageColors` (lines 132-154): the
write-back of the sample `mappedPixel` into the pixel at offset `p`. -/
def writePixel (bigEndian : Bool) (bpp : Nat) (m : Mem) (p : Nat) (mappedPixel : Nat) : Mem :=
  match bpp with
  | 1 => m.store p mappedPixel
  | 2 =>
    if bigEndian then (m.store p (mappedPixel >>> 8)).store (p + 1) mappedPixel
    else (m.store p mappedPixel).store (p + 1) (mappedPixel >>> 8)
  | 3 =>
    if bigEndian then
      ((m.store p ((mappedPixel >>> 16) &&& 0xff)).store (p + 1)
        ((mappedPixel >>> 8) &&& 0xff)).store (p + 2) (mappedPixel &&& 0xff)
    else
      ((m.store p (mappedPixel &&& 0xff)).store (p + 1)
        ((mappedPixel >>> 8) &&& 0xff)).store (p + 2) ((mappedPixel >>> 16) &&& 0xff)
  | 4 =>
    if bigEndian then
      (((m.store p (mappedPixel >>> 24)).store (p + 1) (mappedPixel >>> 16)).store (p + 2)
        (mappedPixel >>> 8)).store (p + 3) mappedPixel
    else
      (((m.store p mappedPixel).store (p + 1) (mappedPixel >>> 8)).store (p + 2)
        (mappedPixel >>> 16)).store (p + 3) (mappedPixel >>> 24)
  | _ => m

/-! ## Image remapper -/

/-- The body of the inner loop of `remapImageColors` (lines 100-154) for the
pixel in column `x` of row `y`. -/
def remapPixel (bigEndian : Bool) (imageSurface : Surface) (palette : List Color)
    (paletteSize : Nat) (m : Mem) (y x : Nat) : Mem :=
  let bpp := imageSurface.format.BytesPerPixel
  let p := y * imageSurface.pitch + x * bpp
  let (pixel, m1) := readPixel bigEndian bpp m p
  let color := SDL_GetRGBA pixel imageSurface.format
  let closestIndex := findClosestColor palette paletteSize color
  let entry := palette.getD closestIndex default
  let mappedPixel := SDL_MapRGBA imageSurface.format entry.r entry.g entry.b color.a
  writePixel bigEndian bpp m1 p mappedPixel

/-- The two nested loops of `remapImageColors` (lines 98-156), run on the
memory of the surface with an empty access log. -/
def remapRun (bigEndian : Bool) (imageSurface : Surface) (palette : List Color)
    (paletteSize : Nat) : Mem :=
  (List.range imageSurface.h).foldl
    (fun m y => (List.range imageSurface.w).foldl
      (fun m x => remapPixel bigEndian imageSurface palette paletteSize m y x) m)
    { bytes := imageSurface.pixels, log := [] }

/-- The function `remapImageColors` (lines 82-161) on a surface that is present
and needs no lock: the surface after the call. Only the pixel memory is
assigned to. -/
def remapImageColors (bigEndian : Bool) (imageSurface : Surface) (palette : List Color)
    (paletteSize : Nat) : Surface :=
  { imageSurface with pixels := (remapRun bigEndian imageSurface palette paletteSize).bytes }

/-- The offsets of the bytes that `remapImageColors` loads or stores, in
program order. -/
def remapAccesses (bigEndian : Bool) (imageSurface : Surface) (palette : List Color)
    (paletteSize : Nat) : List Nat :=
  (remapRun bigEndian imageSurface palette paletteSize).log

/-- The sample of the pixel at offset `p`, as the read rule of
`remapImageColors` assembles it. -/
def loadSample (bigEndian : Bool) (bpp : Nat) (bytes : List Nat) (p : Nat) : Nat :=
  (readPixel bigEndian bpp { bytes := bytes, log := [] } p).1

/-- The color that pixel `(x, y)` of a surface decodes to (lines 100-127). -/
def decodePixel (bigEndian : Bool) (s : Surface) (x y : Nat) : Color :=
  SDL_GetRGBA (loadSample bigEndian s.format.BytesPerPixel s.pixels
    (y * s.pitch + x * s.format.BytesPerPixel)) s.format

/-- The bytes after the write-back of the sample `v` into the pixel at offset
`p`, as the write rule of `remapImageColors` stores it. -/
def storeBytes (bigEndian : Bool) (bpp : Nat) (bytes : List Nat) (p v : Nat) : List Nat :=
  (writePixel bigEndian bpp { bytes := bytes, log := [] } p v).bytes

/-- The sample that `remapImageColors` writes back for a pixel whose sample
was `pixel` (lines 124-129). -/
def mapSample (s : Surface) (palette : List Color) (paletteSize : Nat) (pixel : Nat) : Nat :=
  let color := SDL_GetRGBA pixel s.format
  let entry := palette.getD (findClosestColor palette paletteSize color) default
  SDL_MapRGBA s.format entry.r entry.g entry.b color.a

/-- The effect of one iteration of the inner loop on the bytes alone. -/
def pixelStep (bigEndian : Bool) (s : Surface) (palette : List Color) (paletteSize : Nat)
    (bytes : List Nat) (yx : Nat × Nat) : List Nat :=
  storeBytes bigEndian s.format.BytesPerPixel bytes
    (yx.1 * s.pitch + yx.2 * s.format.BytesPerPixel)
    (mapSample s palette paletteSize
      (loadSample bigEndian s.format.BytesPerPixel bytes
        (yx.1 * s.pitch + yx.2 * s.format.BytesPerPixel)))

/-- Offset `q` is one of the bytes of pixel `(x, y)`, where `yx = (y, x)`. -/
def inPixel (s : Surface) (yx : Nat × Nat) (q : Nat) : Prop :=
  yx.1 * s.pitch + yx.2 * s.format.BytesPerPixel ≤ q
  ∧ q < yx.1 * s.pitch + yx.2 * s.format.BytesPerPixel + s.format.BytesPerPixel

/-- The coordinates `(y, x)` of the pixels in the order of the two loops. -/
def pixelCoords (s : Surface) : List (Nat × Nat) :=
  (List.range s.h).product (List.range s.w)

/-- The bytes-per-pixel values that the two switches handle. -/
def supportedBpp (bpp : Nat) : Prop := bpp = 1 ∨ bpp = 2 ∨ bpp = 3 ∨ bpp = 4

instance (bpp : Nat) : Decidable (supportedBpp bpp) := by
  unfold supportedBpp
  exact inferInstance

/-! ## Palette builder -/

/-- The function `loadPalette` (lines 39-60). The out-parameters `palette` and
`paletteSize` are the caller's variables: their values before the call are
arguments, their values after the call are the result (`none` is `NULL`).
`malloc n` tells whether the allocation of `n` bytes returns a non-null
pointer. The pixel memory is indexed as an array of `Uint32`, whatever the
format and pitch of the surface (line 54, line 58). -/
def loadPalette (malloc : Nat → Bool) (bigEndian : Bool) (paletteSurface : Option Surface)
    (palette : Option (List Color)) (paletteSize : Nat) : Option (List Color) × Nat :=
  match paletteSurface with
  | none => (palette, paletteSize)
  | some s =>
    let size := s.w * s.h
    if malloc (size * 4) then
      (some ((List.range size).map
        (fun i => SDL_GetRGBA (loadSample bigEndian 4 s.pixels (4 * i)) s.format)), size)
    else (none, size)

/-- The command-line path of `main` (lines 292-316) after the two calls of
`IMG_Load`, whose results are the arguments. The result is the surface handed
to `IMG_SavePNG`, or `none` when `main` returns 1 before `remapImageColors` is
called. -/
def mainCommandLine (malloc : Nat → Bool) (bigEndian : Bool)
    (imageSurface paletteSurface : Option Surface) : Option Surface :=
  match imageSurface, paletteSurface with
  | some image, some paletteImage =>
    match loadPalette malloc bigEndian (some paletteImage) none 0 with
    | (none, _) => none
    | (some palette, paletteSize) =>
      some (remapImageColors bigEndian image palette paletteSize)
  | _, _ => none

/-! ## Sample formats and buffers -/

/-- A 4-byte format with four 8-bit channels: red in bits 24-31, green in bits
16-23, blue in bits 8-15, alpha in bits 0-7. -/
def rgba8888 : PixelFormat where
  BytesPerPixel := 4
  unpack := fun s => ⟨s / 16777216 % 256, s / 65536 % 256, s / 256 % 256, s % 256⟩
  pack := fun r g b a => r * 16777216 + g * 65536 + b * 256 + a

/-- A 3-byte format without alpha: red in bits 0-7, green in bits 8-15, blue in
bits 16-23; every sample is opaque. -/
def rgb24 : PixelFormat where
  BytesPerPixel := 3
  unpack := fun s => ⟨s % 256, s / 256 % 256, s / 65536 % 256, 255⟩
  pack := fun r g b _ => r + g * 256 + b * 65536

/-- A buffer as the data model describes it: a supported pixel size, rows of
`pitch >= w * BytesPerPixel` bytes, and a byte region of `h * pitch` bytes. -/
def Surface.wellFormed (s : Surface) : Prop :=
  supportedBpp s.format.BytesPerPixel
  ∧ s.w * s.format.BytesPerPixel ≤ s.pitch
  ∧ s.pixels.length = s.h * s.pitch

instance (s : Surface) : Decidable s.wellFormed := by
  unfold Surface.wellFormed
  exact inferInstance

/-- A palette whose two entries are both at the maximal distance `3 * 255 ^ 2`
from black. -/
def farPalette : List Color := [⟨255, 255, 255, 0⟩, ⟨255, 255, 255, 9⟩]

/-- A palette with two entries (indices 1 and 2) at the same distance from the
color `(2, 0, 0)`. -/
def tiePalette : List Color := [⟨5, 0, 0, 255⟩, ⟨1, 0, 0, 255⟩, ⟨3, 0, 0, 255⟩]

/-- A palette with two entries of the same RGB and different alpha. -/
def twinPalette : List Color := [⟨0, 0, 0, 255⟩, ⟨0, 0, 0, 7⟩, ⟨255, 255, 255, 255⟩]

/-- A surface without pixels. -/
def emptyImage : Surface where
  w := 0
  h := 0
  pitch := 0
  format := rgba8888
  pixels := []

/-- An allocator that returns a non-null pointer for every request. -/
def mallocAlways : Nat → Bool := fun _ => true

/-- An allocator that returns null for a request of zero bytes and a non-null
pointer otherwise. -/
def mallocNonzero : Nat → Bool := fun n => decide (0 < n)

/-- The palette of the scenario of the spec. -/
def scenarioPalette : List Color := [⟨0, 0, 0, 255⟩, ⟨255, 255, 255, 255⟩]

/-- The target of the scenario of the spec, 2 pixels by 1, stored in the format
`rgba8888` on a little-endian machine. -/
def scenarioTarget : Surface where
  w := 2
  h := 1
  pitch := 8
  format := rgba8888
  pixels := [255, 10, 10, 10, 128, 250, 250, 250]

/-- A 24-bit image of 2 pixels by 1 with colors `(10,20,30)` and `(40,50,60)`;
rows are padded to a multiple of four bytes. -/
def rgbImage : Surface where
  w := 2
  h := 1
  pitch := 8
  format := rgb24
  pixels := [10, 20, 30, 40, 50, 60, 0, 0]

/-! ## Lemmas on the matcher -/

theorem sq_le_of_byte (x y : Nat) (hx : x < 256) (hy : y < 256) :
    ((x : Int) - (y : Int)) * ((x : Int) - (y : Int)) ≤ 65025 := by
  have h1 : (x : Int) - (y : Int) ≤ 255 := by omega
  have h2 : -255 ≤ (x : Int) - (y : Int) := by omega
  nlinarith

theorem sqDist_le_seed (p c : Color) (hp : p.valid) (hc : c.valid) :
    sqDist p c ≤ 255 * 255 * 3 := by
  obtain ⟨hp1, hp2, hp3, _⟩ := hp
  obtain ⟨hc1, hc2, hc3, _⟩ := hc
  have h1 := sq_le_of_byte p.r c.r hp1 hc1
  have h2 := sq_le_of_byte p.g c.g hp2 hc2
  have h3 := sq_le_of_byte p.b c.b hp3 hc3
  simp only [sqDist]
  omega

theorem closestStep_eq (palette : List Color) (color : Color) (ci : Nat) (md : Int) (i : Nat) :
    closestStep palette color (ci, md) i
      = if sqDist (palette.getD i default) color < md
        then (i, sqDist (palette.getD i default) color) else (ci, md) := rfl

theorem closestLoop_succ (palette : List Color) (color : Color) (n : Nat) :
    closestLoop palette color (n + 1)
      = closestStep palette color (closestLoop palette color n) n := by
  simp [closestLoop, List.range_succ, List.foldl_append]

/-- The loop invariant of `findClosestColor`: the running minimum bounds every
scanned entry from below, and either nothing was recorded yet (seed value,
index 0) or the recorded index is the first scanned entry at the minimum. -/
theorem closestLoop_invariant (palette : List Color) (color : Color) (n : Nat) :
    (∀ j, j < n → (closestLoop palette color n).2 ≤ sqDist (palette.getD j default) color)
    ∧ (((closestLoop palette color n).2 = 255 * 255 * 3 ∧ (closestLoop palette color n).1 = 0)
       ∨ ((closestLoop palette color n).1 < n
          ∧ (closestLoop palette color n).2
              = sqDist (palette.getD (closestLoop palette color n).1 default) color
          ∧ ∀ j, j < (closestLoop palette color n).1 →
              (closestLoop palette color n).2 < sqDist (palette.getD j default) color)) := by
  induction n with
  | zero =>
    refine ⟨fun j hj => absurd hj (Nat.not_lt_zero j), Or.inl ⟨?_, ?_⟩⟩ <;> simp [closestLoop]
  | succ n ih =>
    obtain ⟨ihmin, ihcase⟩ := ih
    rw [closestLoop_succ]
    generalize closestLoop palette color n = st at ihmin ihcase
    obtain ⟨ci, md⟩ := st
    simp only at ihmin ihcase
    rw [closestStep_eq]
    by_cases hlt : sqDist (palette.getD n default) color < md
    · rw [if_pos hlt]
      refine ⟨?_, Or.inr ⟨Nat.lt_succ_self n, rfl, ?_⟩⟩
      · intro j hj
        rcases Nat.lt_succ_iff_lt_or_eq.mp hj with h | h
        · exact le_trans (le_of_lt hlt) (ihmin j h)
        · subst h; exact le_refl _
      · intro j hj
        exact lt_of_lt_of_le hlt (ihmin j hj)
    · rw [if_neg hlt]
      refine ⟨?_, ?_⟩
      · intro j hj
        rcases Nat.lt_succ_iff_lt_or_eq.mp hj with h | h
        · exact ihmin j h
        · subst h; exact not_lt.mp hlt
      · rcases ihcase with h | ⟨h1, h2, h3⟩
        · exact Or.inl h
        · exact Or.inr ⟨Nat.lt_succ_of_lt h1, h2, h3⟩

/-- Summary of the scan over a non-empty palette of valid colors: the returned
index is in range, its entry is at minimal distance, and every earlier entry
is strictly farther. -/
theorem findClosestColor_spec (P : List Color) (C : Color)
    (hne : P ≠ []) (hP : ∀ c ∈ P, c.valid) (hC : C.valid) :
    findClosestColor P P.length C < P.length
    ∧ (∀ j, j < P.length →
        sqDist (P.getD (findClosestColor P P.length C) default) C ≤ sqDist (P.getD j default) C)
    ∧ (∀ j, j < findClosestColor P P.length C →
        sqDist (P.getD (findClosestColor P P.length C) default) C < sqDist (P.getD j default) C) := by
  have hpos : 0 < P.length := List.length_pos.mpr hne
  obtain ⟨hmin, hcase⟩ := closestLoop_invariant P C P.length
  unfold findClosestColor
  rcases hcase with ⟨hseed, hzero⟩ | ⟨hlt, heq, hfirst⟩
  · rw [hzero]
    have h0 : sqDist (P.getD 0 default) C = 255 * 255 * 3 := by
      have hle := hmin 0 hpos
      rw [hseed] at hle
      have hv : (P.getD 0 default).valid := by
        apply hP
        rw [List.getD_eq_getElem P default hpos]
        exact List.getElem_mem _
      exact le_antisymm (sqDist_le_seed _ _ hv hC) hle
    refine ⟨hpos, ?_, fun j hj => absurd hj (Nat.not_lt_zero j)⟩
    intro j hj
    rw [h0, ← hseed]
    exact hmin j hj
  · refine ⟨hlt, ?_, ?_⟩
    · intro j hj
      rw [← heq]
      exact hmin j hj
    · intro j hj
      rw [← heq]
      exact hfirst j hj


/-! ## Lemmas on pixel memory -/

theorem getD_set_self (b : List Nat) (p v : Nat) (h : p < b.length) :
    (b.set p v).getD p 0 = v := by
  simp [List.getD_eq_getElem?_getD, List.getElem?_set, h]

theorem getD_set_of_ne (b : List Nat) (p q v : Nat) (h : p ≠ q) :
    (b.set p v).getD q 0 = b.getD q 0 := by
  simp [List.getD_eq_getElem?_getD, List.getElem?_set, h]

theorem lor_of_lt (i a b : Nat) (hb : b < 2 ^ i) : (2 ^ i * a) ||| b = 2 ^ i * a + b :=
  (Nat.mul_add_lt_is_or hb a).symm

theorem and_255 (a : Nat) : a &&& 255 = a % 256 := by
  have h := Nat.and_pow_two_sub_one_eq_mod a 8
  simpa using h

theorem readPixel_fst (be : Bool) (bpp : Nat) (m : Mem) (p : Nat) :
    (readPixel be bpp m p).1 = loadSample be bpp m.bytes p := by
  unfold loadSample readPixel
  split <;> simp [Mem.load]

theorem readPixel_snd (be : Bool) (bpp : Nat) (m : Mem) (p : Nat) (hb : supportedBpp bpp) :
    (readPixel be bpp m p).2 = { bytes := m.bytes, log := m.log ++ List.range' p bpp } := by
  rcases hb with rfl | rfl | rfl | rfl <;> simp [readPixel, Mem.load, List.range']

theorem writePixel_bytes (be : Bool) (bpp : Nat) (m : Mem) (p v : Nat) :
    (writePixel be bpp m p v).bytes = storeBytes be bpp m.bytes p v := by
  unfold storeBytes writePixel
  split <;> cases be <;> simp [Mem.store]

theorem writePixel_log (be : Bool) (bpp : Nat) (m : Mem) (p v : Nat) (hb : supportedBpp bpp) :
    (writePixel be bpp m p v).log = m.log ++ List.range' p bpp := by
  rcases hb with rfl | rfl | rfl | rfl <;> cases be <;>
    simp [writePixel, Mem.store, List.range']

theorem storeBytes_length (be : Bool) (bpp : Nat) (b : List Nat) (p v : Nat) :
    (storeBytes be bpp b p v).length = b.length := by
  unfold storeBytes writePixel
  split <;> cases be <;> simp [Mem.store]

theorem storeBytes_getD_outside (be : Bool) (bpp : Nat) (b : List Nat) (p v q : Nat)
    (hq : q < p ∨ p + bpp ≤ q) : (storeBytes be bpp b p v).getD q 0 = b.getD q 0 := by
  unfold storeBytes writePixel
  split <;> cases be <;> simp only [Mem.store, Bool.false_eq_true, ↓reduceIte] <;>
    (repeat rw [getD_set_of_ne _ _ _ _ (by omega)])

theorem getD_set (b : List Nat) (p v q : Nat) :
    (b.set p v).getD q 0 = if p = q ∧ p < b.length then v else b.getD q 0 := by
  by_cases h : p = q
  · subst h
    by_cases hl : p < b.length
    · simp [getD_set_self, hl]
    · have hs : b.set p v = b := List.set_eq_of_length_le (by omega)
      simp [hl, hs]
  · simp [getD_set_of_ne, h]

theorem lor_add (i a k x : Nat) (ha : a < 2 ^ i) (hx : x = 2 ^ i * k) : a ||| x = a + x := by
  subst hx
  rw [Nat.lor_comm, lor_of_lt i k a ha, Nat.add_comm]

theorem assemble2_le (a b : Nat) (ha : a < 256) :
    a ||| (b <<< 8) = a + b * 256 := by
  rw [lor_add 8 a b _ (by omega) (by omega)]; omega

theorem assemble2_be (a b : Nat) (hb : b < 256) :
    (a <<< 8) ||| b = a * 256 + b := by
  rw [Nat.lor_comm, assemble2_le b a hb]; omega

theorem assemble3_le (a b c : Nat) (ha : a < 256) (hb : b < 256) :
    a ||| (b <<< 8) ||| (c <<< 16) = a + b * 256 + c * 65536 := by
  rw [assemble2_le a b ha, lor_add 16 _ c _ (by omega) (by omega)]; omega

theorem assemble3_be (a b c : Nat) (hb : b < 256) (hc : c < 256) :
    (a <<< 16) ||| (b <<< 8) ||| c = a * 65536 + b * 256 + c := by
  rw [Nat.lor_comm (a <<< 16), lor_add 16 (b <<< 8) a _ (by omega) (by omega),
    Nat.lor_comm, lor_add 8 c (b + a * 256) _ (by omega) (by omega)]
  omega

theorem assemble4_le (a b c d : Nat) (ha : a < 256) (hb : b < 256) (hc : c < 256) :
    a ||| (b <<< 8) ||| (c <<< 16) ||| (d <<< 24) = a + b * 256 + c * 65536 + d * 16777216 := by
  rw [assemble3_le a b c ha hb, lor_add 24 _ d _ (by omega) (by omega)]; omega

theorem assemble4_be (a b c d : Nat) (hb : b < 256) (hc : c < 256) (hd : d < 256) :
    (a <<< 24) ||| (b <<< 16) ||| (c <<< 8) ||| d
      = a * 16777216 + b * 65536 + c * 256 + d := by
  rw [Nat.lor_comm (a <<< 24), lor_add 24 (b <<< 16) a _ (by omega) (by omega),
    Nat.lor_comm _ (c <<< 8), lor_add 16 (c <<< 8) (b + a * 256) _ (by omega) (by omega),
    Nat.lor_comm, lor_add 8 d (c + b * 256 + a * 65536) _ (by omega) (by omega)]
  omega

theorem loadSample_storeBytes (be : Bool) (bpp : Nat) (b : List Nat) (p v : Nat)
    (hb : supportedBpp bpp) (hp : p + bpp ≤ b.length) :
    loadSample be bpp (storeBytes be bpp b p v) p = v % 2 ^ (8 * bpp) := by
  have h0 : p < b.length := by rcases hb with rfl | rfl | rfl | rfl <;> omega
  rcases hb with rfl | rfl | rfl | rfl <;> cases be <;>
    simp only [loadSample, storeBytes, readPixel, writePixel, Mem.load, Mem.store,
      Bool.false_eq_true, ↓reduceIte, getD_set, List.length_set, and_255]
  · simp [h0]
  · simp [h0]
  all_goals
    have e10 : ¬ (p + 1 = p) := by omega
    have e01 : ¬ (p = p + 1) := by omega
    have e20 : ¬ (p + 2 = p) := by omega
    have e02 : ¬ (p = p + 2) := by omega
    have e21 : ¬ (p + 2 = p + 1) := by omega
    have e12 : ¬ (p + 1 = p + 2) := by omega
    have e30 : ¬ (p + 3 = p) := by omega
    have e03 : ¬ (p = p + 3) := by omega
    have e31 : ¬ (p + 3 = p + 1) := by omega
    have e13 : ¬ (p + 1 = p + 3) := by omega
    have e32 : ¬ (p + 3 = p + 2) := by omega
    have e23 : ¬ (p + 2 = p + 3) := by omega
    have h1 : p + 1 < b.length := by omega
    have m256 : ∀ n : Nat, n % 256 < 256 := fun n => Nat.mod_lt n (by norm_num)
  · simp only [h0, h1, e10, e01, and_true, true_and, false_and, if_true, if_false]
    rw [assemble2_le _ _ (m256 _)]; omega
  · simp only [h0, h1, e10, e01, and_true, true_and, false_and, if_true, if_false]
    rw [assemble2_be _ _ (m256 _)]; omega
  · have h2 : p + 2 < b.length := by omega
    simp only [h0, h1, h2, e10, e01, e20, e02, e21, e12, and_true, true_and, false_and,
      if_true, if_false]
    rw [assemble3_le _ _ _ (m256 _) (m256 _)]; omega
  · have h2 : p + 2 < b.length := by omega
    simp only [h0, h1, h2, e10, e01, e20, e02, e21, e12, and_true, true_and, false_and,
      if_true, if_false]
    rw [assemble3_be _ _ _ (m256 _) (m256 _)]; omega
  · have h2 : p + 2 < b.length := by omega
    have h3 : p + 3 < b.length := by omega
    simp only [h0, h1, h2, h3, e10, e01, e20, e02, e21, e12, e30, e03, e31, e13, e32, e23,
      and_true, true_and, false_and, if_true, if_false]
    rw [assemble4_le _ _ _ _ (m256 _) (m256 _) (m256 _)]; omega
  · have h2 : p + 2 < b.length := by omega
    have h3 : p + 3 < b.length := by omega
    simp only [h0, h1, h2, h3, e10, e01, e20, e02, e21, e12, e30, e03, e31, e13, e32, e23,
      and_true, true_and, false_and, if_true, if_false]
    rw [assemble4_be _ _ _ _ (m256 _) (m256 _) (m256 _)]; omega

theorem storeBytes_getD_inside (be : Bool) (bpp : Nat) (b b' : List Nat) (p v q : Nat)
    (hb : supportedBpp bpp) (hp : p + bpp ≤ b.length) (hp' : p + bpp ≤ b'.length)
    (hq1 : p ≤ q) (hq2 : q < p + bpp) :
    (storeBytes be bpp b p v).getD q 0 = (storeBytes be bpp b' p v).getD q 0 := by
  rcases hb with rfl | rfl | rfl | rfl <;> cases be <;>
    simp only [storeBytes, writePixel, Mem.store, Bool.false_eq_true, ↓reduceIte, getD_set,
      List.length_set] <;>
    split_ifs <;> first | rfl | omega

theorem loadSample_congr (be : Bool) (bpp : Nat) (b b' : List Nat) (p : Nat)
    (h : ∀ q, p ≤ q → q < p + bpp → b.getD q 0 = b'.getD q 0) :
    loadSample be bpp b p = loadSample be bpp b' p := by
  unfold loadSample readPixel
  split
  · simp only [Mem.load]
    exact h p (by omega) (by omega)
  · simp only [Mem.load]
    rw [h p (by omega) (by omega), h (p + 1) (by omega) (by omega)]
  · simp only [Mem.load]
    rw [h p (by omega) (by omega), h (p + 1) (by omega) (by omega),
      h (p + 2) (by omega) (by omega)]
  · simp only [Mem.load]
    rw [h p (by omega) (by omega), h (p + 1) (by omega) (by omega),
      h (p + 2) (by omega) (by omega), h (p + 3) (by omega) (by omega)]
  · rfl

theorem remapPixel_bytes (be : Bool) (s : Surface) (P : List Color) (n : Nat) (m : Mem)
    (y x : Nat) (hb : supportedBpp s.format.BytesPerPixel) :
    (remapPixel be s P n m y x).bytes = pixelStep be s P n m.bytes (y, x) := by
  simp only [remapPixel, pixelStep, mapSample, writePixel_bytes, readPixel_fst,
    readPixel_snd be _ m _ hb]

theorem remapPixel_log (be : Bool) (s : Surface) (P : List Color) (n : Nat) (m : Mem)
    (y x : Nat) (hb : supportedBpp s.format.BytesPerPixel) :
    (remapPixel be s P n m y x).log
      = m.log ++ List.range' (y * s.pitch + x * s.format.BytesPerPixel) s.format.BytesPerPixel
          ++ List.range' (y * s.pitch + x * s.format.BytesPerPixel) s.format.BytesPerPixel := by
  simp only [remapPixel, writePixel_log be _ _ _ _ hb, readPixel_snd be _ m _ hb]

/-! ## Lemmas on the two loops -/

theorem foldl_nested {α β σ : Type} (f : σ → α → β → σ) (l1 : List α) (l2 : List β) (m : σ) :
    l1.foldl (fun m a => l2.foldl (fun m b => f m a b) m) m
      = (l1.product l2).foldl (fun m ab => f m ab.1 ab.2) m := by
  induction l1 generalizing m with
  | nil => rfl
  | cons a l1 ih =>
    have hc : (a :: l1).product l2 = List.map (fun b => (a, b)) l2 ++ l1.product l2 :=
      List.product_cons a l1 l2
    rw [hc, List.foldl_append, List.foldl_map, List.foldl_cons, ih]

theorem foldl_getD_of_not_mem {ι : Type} (step : List Nat → ι → List Nat) (fp : ι → Nat → Prop)
    (hframe : ∀ i b q, ¬ fp i q → (step b i).getD q 0 = b.getD q 0)
    (l : List ι) (b : List Nat) (q : Nat) (hq : ∀ i ∈ l, ¬ fp i q) :
    (l.foldl step b).getD q 0 = b.getD q 0 := by
  induction l generalizing b with
  | nil => rfl
  | cons j rest ih =>
    rw [List.foldl_cons, ih _ (fun i hi => hq i (List.mem_cons_of_mem j hi)),
      hframe j b q (hq j (List.mem_cons_self j rest))]

theorem foldl_length {ι : Type} (step : List Nat → ι → List Nat)
    (hlen : ∀ i b, (step b i).length = b.length) (l : List ι) (b : List Nat) :
    (l.foldl step b).length = b.length := by
  induction l generalizing b with
  | nil => rfl
  | cons j rest ih => rw [List.foldl_cons, ih, hlen]

theorem foldl_getD_of_mem {ι : Type} (step : List Nat → ι → List Nat) (fp : ι → Nat → Prop)
    (hframe : ∀ i b q, ¬ fp i q → (step b i).getD q 0 = b.getD q 0)
    (hlen : ∀ i b, (step b i).length = b.length)
    (l : List ι) (L : Nat)
    (hlocal : ∀ i ∈ l, ∀ b b', b.length = L → b'.length = L →
      (∀ q, fp i q → b.getD q 0 = b'.getD q 0) →
      ∀ q, fp i q → (step b i).getD q 0 = (step b' i).getD q 0)
    (hnd : l.Nodup)
    (hdisj : ∀ i ∈ l, ∀ j ∈ l, i ≠ j → ∀ q, fp i q → ¬ fp j q)
    (b : List Nat) (hb : b.length = L) (i : ι) (hi : i ∈ l) (q : Nat) (hq : fp i q) :
    (l.foldl step b).getD q 0 = (step b i).getD q 0 := by
  induction l generalizing b with
  | nil => cases hi
  | cons j rest ih =>
    rw [List.foldl_cons]
    obtain ⟨hj, hnd'⟩ := List.nodup_cons.mp hnd
    rcases List.mem_cons.mp hi with rfl | hi'
    · apply foldl_getD_of_not_mem step fp hframe
      intro k hk
      have hne : i ≠ k := fun e => hj (e ▸ hk)
      exact hdisj i (List.mem_cons_self i rest) k (List.mem_cons_of_mem i hk) hne q hq
    · have hne : i ≠ j := fun e => hj (e ▸ hi')
      rw [ih (fun k hk => hlocal k (List.mem_cons_of_mem j hk)) hnd'
        (fun k hk k' hk' => hdisj k (List.mem_cons_of_mem j hk) k' (List.mem_cons_of_mem j hk'))
        (step b j) (by rw [hlen, hb]) hi']
      apply hlocal i hi (step b j) b (by rw [hlen, hb]) hb _ q hq
      intro q' hq'
      exact hframe j b q' (hdisj i hi j (List.mem_cons_self j rest) hne q' hq')

theorem mem_pixelCoords (s : Surface) (yx : Nat × Nat) :
    yx ∈ pixelCoords s ↔ yx.1 < s.h ∧ yx.2 < s.w := by
  obtain ⟨y, x⟩ := yx
  simp [pixelCoords, List.mem_product]

theorem nodup_pixelCoords (s : Surface) : (pixelCoords s).Nodup :=
  List.Nodup.product (List.nodup_range _) (List.nodup_range _)

theorem offset_unique (n a a' r r' : Nat) (hr : r < n) (hr' : r' < n)
    (h : a * n + r = a' * n + r') : a = a' ∧ r = r' := by
  rcases Nat.lt_trichotomy a a' with hlt | heq | hgt
  · have h1 : (a + 1) * n ≤ a' * n := Nat.mul_le_mul_right n hlt
    rw [Nat.add_mul] at h1
    omega
  · subst heq
    omega
  · have h1 : (a' + 1) * n ≤ a * n := Nat.mul_le_mul_right n hgt
    rw [Nat.add_mul] at h1
    omega

theorem pixel_row_bound (w bpp x k : Nat) (hx : x < w) (hk : k < bpp) :
    x * bpp + k < w * bpp := by
  have h1 : (x + 1) * bpp ≤ w * bpp := Nat.mul_le_mul_right bpp hx
  rw [Nat.add_mul] at h1
  omega

theorem pixel_in_bounds (s : Surface) (hwf : s.wellFormed) (yx : Nat × Nat)
    (hyx : yx ∈ pixelCoords s) :
    yx.1 * s.pitch + yx.2 * s.format.BytesPerPixel + s.format.BytesPerPixel ≤ s.h * s.pitch := by
  obtain ⟨hb, hpitch, _⟩ := hwf
  obtain ⟨hy, hx⟩ := (mem_pixelCoords s yx).mp hyx
  have h1 : (yx.2 + 1) * s.format.BytesPerPixel ≤ s.w * s.format.BytesPerPixel :=
    Nat.mul_le_mul_right _ hx
  have h2 : (yx.1 + 1) * s.pitch ≤ s.h * s.pitch := Nat.mul_le_mul_right _ hy
  rw [Nat.add_mul] at h1 h2
  omega

theorem inPixel_disjoint (s : Surface) (hwf : s.wellFormed) (i j : Nat × Nat)
    (hi : i ∈ pixelCoords s) (hj : j ∈ pixelCoords s) (hne : i ≠ j) (q : Nat)
    (hqi : inPixel s i q) : ¬ inPixel s j q := by
  intro hqj
  obtain ⟨hb, hpitch, _⟩ := hwf
  obtain ⟨hy, hx⟩ := (mem_pixelCoords s i).mp hi
  obtain ⟨hy', hx'⟩ := (mem_pixelCoords s j).mp hj
  obtain ⟨y, x⟩ := i
  obtain ⟨y', x'⟩ := j
  simp only [inPixel] at hqi hqj
  simp only at hy hx hy' hx'
  obtain ⟨k, hk⟩ := Nat.exists_eq_add_of_le hqi.1
  obtain ⟨k', hk'⟩ := Nat.exists_eq_add_of_le hqj.1
  have hkb : k < s.format.BytesPerPixel := by omega
  have hkb' : k' < s.format.BytesPerPixel := by omega
  have hr := pixel_row_bound s.w _ x k hx hkb
  have hr' := pixel_row_bound s.w _ x' k' hx' hkb'
  have hu := offset_unique s.pitch y y' (x * s.format.BytesPerPixel + k)
    (x' * s.format.BytesPerPixel + k') (by omega) (by omega) (by omega)
  have hu2 := offset_unique s.format.BytesPerPixel x x' k k' hkb hkb' hu.2
  exact hne (by rw [hu.1, hu2.1])

theorem remapRun_eq (be : Bool) (s : Surface) (P : List Color) (n : Nat) :
    remapRun be s P n
      = (pixelCoords s).foldl (fun m yx => remapPixel be s P n m yx.1 yx.2)
          { bytes := s.pixels, log := [] } :=
  foldl_nested (fun m y x => remapPixel be s P n m y x) _ _ _

theorem foldl_remapPixel_bytes (be : Bool) (s : Surface) (P : List Color) (n : Nat)
    (hb : supportedBpp s.format.BytesPerPixel) (l : List (Nat × Nat)) (m : Mem) :
    (l.foldl (fun m yx => remapPixel be s P n m yx.1 yx.2) m).bytes
      = l.foldl (pixelStep be s P n) m.bytes := by
  induction l generalizing m with
  | nil => rfl
  | cons yx rest ih =>
    rw [List.foldl_cons, List.foldl_cons, ih, remapPixel_bytes be s P n m yx.1 yx.2 hb]

theorem remapRun_bytes (be : Bool) (s : Surface) (P : List Color) (n : Nat)
    (hb : supportedBpp s.format.BytesPerPixel) :
    (remapRun be s P n).bytes = (pixelCoords s).foldl (pixelStep be s P n) s.pixels := by
  rw [remapRun_eq, foldl_remapPixel_bytes be s P n hb]

theorem foldl_remapPixel_log (be : Bool) (s : Surface) (P : List Color) (n : Nat)
    (hb : supportedBpp s.format.BytesPerPixel) (l : List (Nat × Nat)) (m : Mem) (off : Nat)
    (hoff : off ∈ (l.foldl (fun m yx => remapPixel be s P n m yx.1 yx.2) m).log) :
    off ∈ m.log ∨ ∃ yx ∈ l, inPixel s yx off := by
  induction l generalizing m with
  | nil => exact Or.inl hoff
  | cons yx rest ih =>
    rw [List.foldl_cons] at hoff
    rcases ih _ hoff with h | ⟨yx', hyx', hin⟩
    · rw [remapPixel_log be s P n m yx.1 yx.2 hb, List.mem_append, List.mem_append] at h
      have hr : off ∈ List.range' (yx.1 * s.pitch + yx.2 * s.format.BytesPerPixel)
          s.format.BytesPerPixel → inPixel s yx off := by
        intro hm
        obtain ⟨i, hi, rfl⟩ := List.mem_range'.mp hm
        unfold inPixel
        omega
      rcases h with (h | h) | h
      · exact Or.inl h
      · exact Or.inr ⟨yx, List.mem_cons_self yx rest, hr h⟩
      · exact Or.inr ⟨yx, List.mem_cons_self yx rest, hr h⟩
    · exact Or.inr ⟨yx', List.mem_cons_of_mem yx hyx', hin⟩

theorem pixelStep_length (be : Bool) (s : Surface) (P : List Color) (n : Nat)
    (yx : Nat × Nat) (b : List Nat) : (pixelStep be s P n b yx).length = b.length :=
  storeBytes_length _ _ _ _ _

theorem pixelStep_frame (be : Bool) (s : Surface) (P : List Color) (n : Nat)
    (yx : Nat × Nat) (b : List Nat) (q : Nat) (hq : ¬ inPixel s yx q) :
    (pixelStep be s P n b yx).getD q 0 = b.getD q 0 := by
  apply storeBytes_getD_outside
  unfold inPixel at hq
  omega

theorem pixelStep_local (be : Bool) (s : Surface) (P : List Color) (n : Nat)
    (hwf : s.wellFormed) (yx : Nat × Nat) (hyx : yx ∈ pixelCoords s) (b b' : List Nat)
    (hb : b.length = s.h * s.pitch) (hb' : b'.length = s.h * s.pitch)
    (hag : ∀ q, inPixel s yx q → b.getD q 0 = b'.getD q 0) (q : Nat) (hq : inPixel s yx q) :
    (pixelStep be s P n b yx).getD q 0 = (pixelStep be s P n b' yx).getD q 0 := by
  have hin := pixel_in_bounds s hwf yx hyx
  unfold pixelStep
  rw [loadSample_congr be _ b b' _ (fun q' h1 h2 => hag q' ⟨h1, h2⟩)]
  exact storeBytes_getD_inside be _ b b' _ _ q hwf.1 (by omega) (by omega) hq.1 hq.2

theorem remap_length (be : Bool) (s : Surface) (P : List Color) (n : Nat)
    (hb : supportedBpp s.format.BytesPerPixel) :
    (remapRun be s P n).bytes.length = s.pixels.length := by
  rw [remapRun_bytes be s P n hb]
  exact foldl_length _ (fun i b => pixelStep_length be s P n i b) _ _

theorem remap_getD_inPixel (be : Bool) (s : Surface) (P : List Color) (n : Nat)
    (hwf : s.wellFormed) (yx : Nat × Nat) (hyx : yx ∈ pixelCoords s) (q : Nat)
    (hq : inPixel s yx q) :
    (remapRun be s P n).bytes.getD q 0 = (pixelStep be s P n s.pixels yx).getD q 0 := by
  rw [remapRun_bytes be s P n hwf.1]
  exact foldl_getD_of_mem (pixelStep be s P n) (inPixel s)
    (fun i b q h => pixelStep_frame be s P n i b q h)
    (fun i b => pixelStep_length be s P n i b)
    (pixelCoords s) (s.h * s.pitch)
    (fun i hi b b' hb hb' hag q hq => pixelStep_local be s P n hwf i hi b b' hb hb' hag q hq)
    (nodup_pixelCoords s)
    (fun i hi j hj hne q hq => inPixel_disjoint s hwf i j hi hj hne q hq)
    s.pixels hwf.2.2 yx hyx q hq

theorem remap_getD_outside (be : Bool) (s : Surface) (P : List Color) (n : Nat)
    (hb : supportedBpp s.format.BytesPerPixel) (q : Nat)
    (hq : ∀ yx ∈ pixelCoords s, ¬ inPixel s yx q) :
    (remapRun be s P n).bytes.getD q 0 = s.pixels.getD q 0 := by
  rw [remapRun_bytes be s P n hb]
  exact foldl_getD_of_not_mem (pixelStep be s P n) (inPixel s)
    (fun i b q h => pixelStep_frame be s P n i b q h) _ _ q hq

theorem loadSample_remap (be : Bool) (s : Surface) (P : List Color) (n : Nat)
    (hwf : s.wellFormed) (x y : Nat) (hx : x < s.w) (hy : y < s.h) :
    loadSample be s.format.BytesPerPixel (remapRun be s P n).bytes
        (y * s.pitch + x * s.format.BytesPerPixel)
      = mapSample s P n (loadSample be s.format.BytesPerPixel s.pixels
          (y * s.pitch + x * s.format.BytesPerPixel)) % 2 ^ (8 * s.format.BytesPerPixel) := by
  have hyx : (y, x) ∈ pixelCoords s := (mem_pixelCoords s (y, x)).mpr ⟨hy, hx⟩
  have hin := pixel_in_bounds s hwf (y, x) hyx
  rw [loadSample_congr be _ _ (pixelStep be s P n s.pixels (y, x)) _
    (fun q h1 h2 => remap_getD_inPixel be s P n hwf (y, x) hyx q ⟨h1, h2⟩)]
  unfold pixelStep
  exact loadSample_storeBytes be _ _ _ _ hwf.1 (by rw [hwf.2.2]; exact hin)

theorem decodePixel_remap (be : Bool) (s : Surface) (P : List Color) (n : Nat)
    (hwf : s.wellFormed) (x y : Nat) (hx : x < s.w) (hy : y < s.h) :
    decodePixel be (remapImageColors be s P n) x y
      = SDL_GetRGBA (mapSample s P n (loadSample be s.format.BytesPerPixel s.pixels
          (y * s.pitch + x * s.format.BytesPerPixel)) % 2 ^ (8 * s.format.BytesPerPixel))
          s.format := by
  unfold decodePixel remapImageColors
  simp only []
  rw [loadSample_remap be s P n hwf x y hx hy]

/-! ## Lemmas on the codec and on idempotence -/

theorem SDL_GetRGBA_valid (pixel : Nat) (format : PixelFormat) :
    (SDL_GetRGBA pixel format).valid := by
  unfold SDL_GetRGBA Color.valid
  refine ⟨?_, ?_, ?_, ?_⟩ <;> exact Nat.mod_lt _ (by norm_num)

theorem SDL_MapRGBA_lt (format : PixelFormat) (r g b a : Nat) :
    SDL_MapRGBA format r g b a < 2 ^ 32 :=
  Nat.mod_lt _ (by norm_num)

theorem getD_mem_valid (P : List Color) (hP : ∀ c ∈ P, c.valid) (i : Nat) (hi : i < P.length) :
    (P.getD i default).valid := by
  apply hP
  rw [List.getD_eq_getElem P default hi]
  exact List.getElem_mem _

theorem rgba8888_inverse (c : Color) (hc : c.valid) :
    SDL_GetRGBA (SDL_MapRGBA rgba8888 c.r c.g c.b c.a) rgba8888 = c := by
  obtain ⟨r, g, b, a⟩ := c
  obtain ⟨h1, h2, h3, h4⟩ := hc
  simp only at h1 h2 h3 h4
  simp only [SDL_GetRGBA, SDL_MapRGBA, rgba8888, Color.mk.injEq]
  refine ⟨?_, ?_, ?_, ?_⟩ <;> omega

theorem sqDist_eq_zero (p c : Color) (h : sqDist p c = 0) :
    p.r = c.r ∧ p.g = c.g ∧ p.b = c.b := by
  simp only [sqDist] at h
  have h1 := mul_self_nonneg ((p.r : Int) - (c.r : Int))
  have h2 := mul_self_nonneg ((p.g : Int) - (c.g : Int))
  have h3 := mul_self_nonneg ((p.b : Int) - (c.b : Int))
  have e1 : ((p.r : Int) - (c.r : Int)) * ((p.r : Int) - (c.r : Int)) = 0 := by omega
  have e2 : ((p.g : Int) - (c.g : Int)) * ((p.g : Int) - (c.g : Int)) = 0 := by omega
  have e3 : ((p.b : Int) - (c.b : Int)) * ((p.b : Int) - (c.b : Int)) = 0 := by omega
  have z1 := mul_self_eq_zero.mp e1
  have z2 := mul_self_eq_zero.mp e2
  have z3 := mul_self_eq_zero.mp e3
  omega

theorem sqDist_nonneg (p c : Color) : 0 ≤ sqDist p c := by
  simp only [sqDist]
  have h1 := mul_self_nonneg ((p.r : Int) - (c.r : Int))
  have h2 := mul_self_nonneg ((p.g : Int) - (c.g : Int))
  have h3 := mul_self_nonneg ((p.b : Int) - (c.b : Int))
  omega

theorem sqDist_same_rgb (p : Color) (a : Nat) : sqDist p ⟨p.r, p.g, p.b, a⟩ = 0 := by
  simp [sqDist]

theorem mapSample_mod (s : Surface) (P : List Color) (n pixel : Nat) :
    mapSample s P n pixel % 2 ^ (8 * 4) = mapSample s P n pixel :=
  Nat.mod_eq_of_lt (SDL_MapRGBA_lt _ _ _ _ _)

/-- The color that a remapped sample decodes to, for a codec whose `unpack`
undoes `pack`. -/
theorem decode_mapSample (s : Surface) (P : List Color)
    (hinv : ∀ c : Color, c.valid →
      SDL_GetRGBA (SDL_MapRGBA s.format c.r c.g c.b c.a) s.format = c)
    (hne : P ≠ []) (hP : ∀ c ∈ P, c.valid) (pixel : Nat) :
    SDL_GetRGBA (mapSample s P P.length pixel) s.format
      = ⟨(P.getD (findClosestColor P P.length (SDL_GetRGBA pixel s.format)) default).r,
         (P.getD (findClosestColor P P.length (SDL_GetRGBA pixel s.format)) default).g,
         (P.getD (findClosestColor P P.length (SDL_GetRGBA pixel s.format)) default).b,
         (SDL_GetRGBA pixel s.format).a⟩ := by
  have hc := SDL_GetRGBA_valid pixel s.format
  have hidx := (findClosestColor_spec P (SDL_GetRGBA pixel s.format) hne hP hc).1
  have he := getD_mem_valid P hP _ hidx
  have hvalid : (Color.mk
      (P.getD (findClosestColor P P.length (SDL_GetRGBA pixel s.format)) default).r
      (P.getD (findClosestColor P P.length (SDL_GetRGBA pixel s.format)) default).g
      (P.getD (findClosestColor P P.length (SDL_GetRGBA pixel s.format)) default).b
      (SDL_GetRGBA pixel s.format).a).valid := by
    unfold Color.valid
    exact ⟨he.1, he.2.1, he.2.2.1, hc.2.2.2⟩
  exact hinv _ hvalid

theorem mapSample_idem (s : Surface) (P : List Color)
    (hinv : ∀ c : Color, c.valid →
      SDL_GetRGBA (SDL_MapRGBA s.format c.r c.g c.b c.a) s.format = c)
    (hne : P ≠ []) (hP : ∀ c ∈ P, c.valid) (pixel : Nat) :
    mapSample s P P.length (mapSample s P P.length pixel) = mapSample s P P.length pixel := by
  have hdec := decode_mapSample s P hinv hne hP pixel
  have hc := SDL_GetRGBA_valid pixel s.format
  have hidx := (findClosestColor_spec P (SDL_GetRGBA pixel s.format) hne hP hc).1
  have he := getD_mem_valid P hP _ hidx
  generalize hv : mapSample s P P.length pixel = v at hdec
  generalize hc' : SDL_GetRGBA v s.format = c' at hdec
  have hval' : c'.valid := hc' ▸ SDL_GetRGBA_valid v s.format
  have hmin := (findClosestColor_spec P c' hne hP hval').2.1
    (findClosestColor P P.length (SDL_GetRGBA pixel s.format)) hidx
  have hzero : sqDist (P.getD (findClosestColor P P.length (SDL_GetRGBA pixel s.format)) default)
      c' = 0 := by
    rw [hdec]; exact sqDist_same_rgb _ _
  have hz : sqDist (P.getD (findClosestColor P P.length c') default) c' = 0 :=
    le_antisymm (hzero ▸ hmin) (sqDist_nonneg _ _)
  obtain ⟨e1, e2, e3⟩ := sqDist_eq_zero _ _ hz
  have hstep : mapSample s P P.length v = SDL_MapRGBA s.format c'.r c'.g c'.b c'.a := by
    simp only [mapSample, hc', e1, e2, e3]
  rw [hstep, hdec, ← hv]
  rfl

theorem list_ext_getD (l l' : List Nat) (hlen : l.length = l'.length)
    (h : ∀ q, l.getD q 0 = l'.getD q 0) : l = l' := by
  apply List.ext_getElem hlen
  intro n h1 h2
  have := h n
  rwa [List.getD_eq_getElem l 0 h1, List.getD_eq_getElem l' 0 h2] at this

/-- The decoded color of a remapped pixel in a 4-byte format whose `unpack`
undoes `pack`. -/
theorem decodePixel_remap_color (be : Bool) (s : Surface) (P : List Color)
    (hwf : s.wellFormed) (h4 : s.format.BytesPerPixel = 4)
    (hinv : ∀ c : Color, c.valid →
      SDL_GetRGBA (SDL_MapRGBA s.format c.r c.g c.b c.a) s.format = c)
    (hne : P ≠ []) (hP : ∀ c ∈ P, c.valid) (x y : Nat) (hx : x < s.w) (hy : y < s.h) :
    decodePixel be (remapImageColors be s P P.length) x y
      = ⟨(P.getD (findClosestColor P P.length (decodePixel be s x y)) default).r,
         (P.getD (findClosestColor P P.length (decodePixel be s x y)) default).g,
         (P.getD (findClosestColor P P.length (decodePixel be s x y)) default).b,
         (decodePixel be s x y).a⟩ := by
  rw [decodePixel_remap be s P P.length hwf x y hx hy, h4, mapSample_mod]
  have hd := decode_mapSample s P hinv hne hP
    (loadSample be s.format.BytesPerPixel s.pixels (y * s.pitch + x * s.format.BytesPerPixel))
  rw [h4] at hd
  rw [hd]
  simp only [decodePixel, h4]

/-! ## The palette builder on tightly packed 4-byte surfaces -/

/-- The list of colors that `loadPalette` builds when the allocation
succeeds. -/
theorem loadPalette_eq (malloc : Nat → Bool) (be : Bool) (s : Surface)
    (hm : malloc (s.w * s.h * 4) = true) :
    loadPalette malloc be (some s) none 0
      = (some ((List.range (s.w * s.h)).map
          (fun i => SDL_GetRGBA (loadSample be 4 s.pixels (4 * i)) s.format)), s.w * s.h) := by
  simp [loadPalette, hm]

/-- On a 4-byte surface without row padding the palette entry at index
`y * w + x` is the color of pixel `(x, y)`. -/
theorem loadPalette_packed (be : Bool) (s : Surface)
    (h4 : s.format.BytesPerPixel = 4) (hpitch : s.pitch = 4 * s.w)
    (x y : Nat) (hx : x < s.w) (hy : y < s.h) :
    ((List.range (s.w * s.h)).map
        (fun i => SDL_GetRGBA (loadSample be 4 s.pixels (4 * i)) s.format)).getD
        (y * s.w + x) default
      = decodePixel be s x y := by
  have hlt : y * s.w + x < s.w * s.h := by
    have h1 : (y + 1) * s.w ≤ s.h * s.w := Nat.mul_le_mul_right _ hy
    rw [Nat.add_mul, Nat.mul_comm s.h] at h1
    omega
  rw [List.getD_eq_getElem _ _ (by simpa using hlt)]
  simp only [List.getElem_map, List.getElem_range, decodePixel, h4, hpitch]
  congr 2
  ring

/-- On a 4-byte surface without row padding, with a codec whose `unpack`
undoes `pack`, remapping the surface with the palette built from itself leaves
the color of every pixel as it was. -/
theorem remap_own_palette_packed (be : Bool) (s : Surface)
    (hwf : s.wellFormed) (h4 : s.format.BytesPerPixel = 4) (hpitch : s.pitch = 4 * s.w)
    (hinv : ∀ c : Color, c.valid →
      SDL_GetRGBA (SDL_MapRGBA s.format c.r c.g c.b c.a) s.format = c)
    (P : List Color)
    (hPal : P = (List.range (s.w * s.h)).map
      (fun i => SDL_GetRGBA (loadSample be 4 s.pixels (4 * i)) s.format))
    (x y : Nat) (hx : x < s.w) (hy : y < s.h) :
    decodePixel be (remapImageColors be s P P.length) x y = decodePixel be s x y := by
  have hself : P.getD (y * s.w + x) default = decodePixel be s x y := by
    rw [hPal]; exact loadPalette_packed be s h4 hpitch x y hx hy
  have hlen : P.length = s.w * s.h := by rw [hPal]; simp
  have hlt : y * s.w + x < P.length := by
    have h1 : (y + 1) * s.w ≤ s.h * s.w := Nat.mul_le_mul_right _ hy
    rw [Nat.add_mul, Nat.mul_comm s.h] at h1
    omega
  have hne : P ≠ [] := by
    intro h
    rw [h] at hlt
    exact absurd hlt (Nat.not_lt_zero _)
  have hP : ∀ c ∈ P, c.valid := by
    intro c hc
    rw [hPal] at hc
    obtain ⟨i, _, rfl⟩ := List.mem_map.mp hc
    exact SDL_GetRGBA_valid _ _
  have hval : (decodePixel be s x y).valid := SDL_GetRGBA_valid _ _
  rw [decodePixel_remap_color be s P hwf h4 hinv hne hP x y hx hy]
  have hmin := (findClosestColor_spec P (decodePixel be s x y) hne hP hval).2.1 _ hlt
  rw [hself] at hmin
  have hzero : sqDist (decodePixel be s x y) (decodePixel be s x y) = 0 := by simp [sqDist]
  have hz := le_antisymm (hzero ▸ hmin) (sqDist_nonneg _ _)
  obtain ⟨e1, e2, e3⟩ := sqDist_eq_zero _ _ hz
  rw [e1, e2, e3]

/-! ## Properties of the specification -/

/-- C1: for a non-empty palette `P` of 8-bit colors and a color `C`,
`findClosestColor P (len P) C` returns an index below `len P`, and no entry of
`P` has a strictly smaller squared RGB distance to `C` than the entry at that
index; palettes whose entries all sit at the seed distance `3 * 255 ^ 2` are
included. -/
theorem findClosestColor_nearest (P : List Color) (C : Color)
    (hne : P ≠ []) (hP : ∀ c ∈ P, c.valid) (hC : C.valid) :
    findClosestColor P P.length C < P.length
    ∧ ∀ j, j < P.length →
        ¬ (sqDist (P.getD j default) C
            < sqDist (P.getD (findClosestColor P P.length C) default) C) := by
  obtain ⟨h1, h2, _⟩ := findClosestColor_spec P C hne hP hC
  exact ⟨h1, fun j hj => not_lt.mpr (h2 j hj)⟩

/-- Witness of C1 on a palette whose entries are all at the seed distance. -/
theorem findClosestColor_nearest_witness :
    sqDist (farPalette.getD 0 default) ⟨0, 0, 0, 0⟩ = 255 * 255 * 3
    ∧ sqDist (farPalette.getD 1 default) ⟨0, 0, 0, 0⟩ = 255 * 255 * 3
    ∧ findClosestColor farPalette farPalette.length ⟨0, 0, 0, 0⟩ < farPalette.length
    ∧ ∀ j, j < farPalette.length →
        ¬ (sqDist (farPalette.getD j default) ⟨0, 0, 0, 0⟩
            < sqDist (farPalette.getD
                (findClosestColor farPalette farPalette.length ⟨0, 0, 0, 0⟩) default)
                ⟨0, 0, 0, 0⟩) :=
  ⟨by decide, by decide,
    findClosestColor_nearest farPalette ⟨0, 0, 0, 0⟩ (by decide) (by decide) (by decide)⟩

/-- C2: tie-break of `findClosestColor` on a non-empty palette of 8-bit colors:
every entry at an index below the returned one is strictly farther from `C`
than the returned entry, so the returned index is the lowest among the entries
at minimal distance. -/
theorem findClosestColor_first (P : List Color) (C : Color)
    (hne : P ≠ []) (hP : ∀ c ∈ P, c.valid) (hC : C.valid) :
    (∀ j, j < findClosestColor P P.length C →
        sqDist (P.getD (findClosestColor P P.length C) default) C
          < sqDist (P.getD j default) C)
    ∧ (∀ j, j < P.length →
        sqDist (P.getD j default) C
          ≤ sqDist (P.getD (findClosestColor P P.length C) default) C →
        findClosestColor P P.length C ≤ j) := by
  obtain ⟨_, _, h3⟩ := findClosestColor_spec P C hne hP hC
  refine ⟨h3, fun j _ hle => ?_⟩
  by_contra hlt
  exact absurd (h3 j (not_le.mp hlt)) (not_lt.mpr hle)

/-- Witness of C2: entries 1 and 2 are equidistant from `(2, 0, 0)` and the
lower index 1 is returned. -/
theorem findClosestColor_first_witness :
    sqDist (tiePalette.getD 1 default) ⟨2, 0, 0, 255⟩
      = sqDist (tiePalette.getD 2 default) ⟨2, 0, 0, 255⟩
    ∧ findClosestColor tiePalette tiePalette.length ⟨2, 0, 0, 255⟩ = 1
    ∧ (∀ j, j < findClosestColor tiePalette tiePalette.length ⟨2, 0, 0, 255⟩ →
        sqDist (tiePalette.getD
            (findClosestColor tiePalette tiePalette.length ⟨2, 0, 0, 255⟩) default)
            ⟨2, 0, 0, 255⟩
          < sqDist (tiePalette.getD j default) ⟨2, 0, 0, 255⟩) :=
  ⟨by decide, by decide,
    (findClosestColor_first tiePalette ⟨2, 0, 0, 255⟩ (by decide) (by decide) (by decide)).1⟩

/-- C3: in a 4-byte format whose `unpack` undoes `pack` on 8-bit colors, after
`remapImageColors` with a non-empty palette `P` every pixel `(x, y)` decodes to
`(P[idx].r, P[idx].g, P[idx].b, a)`, where `(r, g, b, a)` is what the pixel
decoded to before the call and `idx = findClosestColor P (len P) (r, g, b, a)`;
the right-hand side mentions no other pixel. The scenario of the spec follows:
pixels `(10,10,10,255)` and `(250,250,250,128)` with the palette
`[(0,0,0,255), (255,255,255,255)]` become `(0,0,0,255)` and
`(255,255,255,128)`. -/
theorem remap_pixel_color (be : Bool) (s : Surface) (P : List Color)
    (hwf : s.wellFormed) (h4 : s.format.BytesPerPixel = 4)
    (hinv : ∀ c : Color, c.valid →
      SDL_GetRGBA (SDL_MapRGBA s.format c.r c.g c.b c.a) s.format = c)
    (hne : P ≠ []) (hP : ∀ c ∈ P, c.valid) :
    (∀ x y, x < s.w → y < s.h →
      decodePixel be (remapImageColors be s P P.length) x y
        = ⟨(P.getD (findClosestColor P P.length (decodePixel be s x y)) default).r,
           (P.getD (findClosestColor P P.length (decodePixel be s x y)) default).g,
           (P.getD (findClosestColor P P.length (decodePixel be s x y)) default).b,
           (decodePixel be s x y).a⟩)
    ∧ (P = scenarioPalette → s.w = 2 → s.h = 1 →
        decodePixel be s 0 0 = ⟨10, 10, 10, 255⟩ →
        decodePixel be s 1 0 = ⟨250, 250, 250, 128⟩ →
        decodePixel be (remapImageColors be s P P.length) 0 0 = ⟨0, 0, 0, 255⟩
        ∧ decodePixel be (remapImageColors be s P P.length) 1 0 = ⟨255, 255, 255, 128⟩) := by
  have hgen := decodePixel_remap_color be s P hwf h4 hinv hne hP
  refine ⟨hgen, ?_⟩
  intro hPal hw hh h0 h1
  subst hPal
  rw [hgen 0 0 (by omega) (by omega), hgen 1 0 (by omega) (by omega), h0, h1]
  constructor <;> decide

/-- Witness of C3: the scenario of the spec, stored as `rgba8888` on a
little-endian machine. -/
theorem remap_pixel_color_witness :
    decodePixel false scenarioTarget 0 0 = ⟨10, 10, 10, 255⟩
    ∧ decodePixel false scenarioTarget 1 0 = ⟨250, 250, 250, 128⟩
    ∧ decodePixel false
        (remapImageColors false scenarioTarget scenarioPalette scenarioPalette.length) 0 0
        = ⟨0, 0, 0, 255⟩
    ∧ decodePixel false
        (remapImageColors false scenarioTarget scenarioPalette scenarioPalette.length) 1 0
        = ⟨255, 255, 255, 128⟩ :=
  ⟨by decide, by decide,
    (remap_pixel_color false scenarioTarget scenarioPalette (by decide) rfl rgba8888_inverse
      (by decide) (by decide)).2 rfl rfl rfl (by decide) (by decide)⟩

/-- C8: on a well-formed target (pixel size 1 to 4, `pitch >= w * bpp`, region
of `h * pitch` bytes) every offset that `remapImageColors` loads or stores is
`y * pitch + x * bpp + k` with `y < h`, `x < w`, `k < bpp`, hence below
`h * pitch`; every row-padding byte keeps its value, and the width, height,
pitch, format and size of the buffer are those before the call. -/
theorem remap_frame (be : Bool) (s : Surface) (P : List Color) (n : Nat)
    (hwf : s.wellFormed) :
    (∀ off ∈ remapAccesses be s P n,
      (∃ y x k, y < s.h ∧ x < s.w ∧ k < s.format.BytesPerPixel
        ∧ off = y * s.pitch + x * s.format.BytesPerPixel + k)
      ∧ off < s.h * s.pitch)
    ∧ (∀ y j, y < s.h → s.w * s.format.BytesPerPixel ≤ j → j < s.pitch →
        (remapImageColors be s P n).pixels.getD (y * s.pitch + j) 0
          = s.pixels.getD (y * s.pitch + j) 0)
    ∧ (remapImageColors be s P n).w = s.w
    ∧ (remapImageColors be s P n).h = s.h
    ∧ (remapImageColors be s P n).pitch = s.pitch
    ∧ (remapImageColors be s P n).format = s.format
    ∧ (remapImageColors be s P n).pixels.length = s.pixels.length := by
  refine ⟨?_, ?_, rfl, rfl, rfl, rfl, remap_length be s P n hwf.1⟩
  · intro off hoff
    unfold remapAccesses at hoff
    rw [remapRun_eq] at hoff
    rcases foldl_remapPixel_log be s P n hwf.1 _ _ off hoff with h | ⟨yx, hyx, hin⟩
    · cases h
    · have hb := pixel_in_bounds s hwf yx hyx
      obtain ⟨hy, hx⟩ := (mem_pixelCoords s yx).mp hyx
      obtain ⟨h1, h2⟩ := hin
      refine ⟨⟨yx.1, yx.2, off - (yx.1 * s.pitch + yx.2 * s.format.BytesPerPixel),
        hy, hx, ?_, ?_⟩, ?_⟩ <;> omega
  · intro y j hy hj1 hj2
    apply remap_getD_outside be s P n hwf.1
    intro yx hyx hin
    obtain ⟨_, hx⟩ := (mem_pixelCoords s yx).mp hyx
    obtain ⟨h1, h2⟩ := hin
    obtain ⟨k, hk⟩ := Nat.exists_eq_add_of_le h1
    have hr := pixel_row_bound s.w s.format.BytesPerPixel yx.2 k hx (by omega)
    have hu := offset_unique s.pitch y yx.1 j (yx.2 * s.format.BytesPerPixel + k) hj2
      (by have := hwf.2.1; omega) (by omega)
    omega

/-- Witness of C8: a 24-bit image with two padding bytes in its row. -/
theorem remap_frame_witness :
    rgbImage.wellFormed
    ∧ remapAccesses false rgbImage scenarioPalette 2 = [0, 1, 2, 0, 1, 2, 3, 4, 5, 3, 4, 5]
    ∧ (∀ off ∈ remapAccesses false rgbImage scenarioPalette 2,
        (∃ y x k, y < rgbImage.h ∧ x < rgbImage.w ∧ k < rgbImage.format.BytesPerPixel
          ∧ off = y * rgbImage.pitch + x * rgbImage.format.BytesPerPixel + k)
        ∧ off < rgbImage.h * rgbImage.pitch) :=
  ⟨by decide, by decide, (remap_frame false rgbImage scenarioPalette 2 (by decide)).1⟩

/-- C9: sample round trip. For pixel sizes 1 to 4 and both byte orders, a
sample whose bits from position `8 * bpp` on are zero, stored into a pixel by
the write rule of `remapImageColors` and assembled again by its read rule,
comes back unchanged. For 3 bytes, big-endian keeps bits 16-23 in byte 0 and
little-endian keeps bits 0-7 in byte 0, both when writing and when reading
(and the other two bytes symmetrically). -/
theorem sample_round_trip (be : Bool) (bpp : Nat) (m : Mem) (p v : Nat)
    (hb : supportedBpp bpp) (hv : v < 2 ^ (8 * bpp)) (hp : p + bpp ≤ m.bytes.length) :
    (readPixel be bpp (writePixel be bpp m p v) p).1 = v
    ∧ (∀ (m3 : Mem) (q u : Nat), q + 3 ≤ m3.bytes.length →
        (writePixel true 3 m3 q u).bytes.getD q 0 = (u >>> 16) % 256
        ∧ (writePixel true 3 m3 q u).bytes.getD (q + 1) 0 = (u >>> 8) % 256
        ∧ (writePixel true 3 m3 q u).bytes.getD (q + 2) 0 = u % 256
        ∧ (writePixel false 3 m3 q u).bytes.getD q 0 = u % 256
        ∧ (writePixel false 3 m3 q u).bytes.getD (q + 1) 0 = (u >>> 8) % 256
        ∧ (writePixel false 3 m3 q u).bytes.getD (q + 2) 0 = (u >>> 16) % 256)
    ∧ (∀ (m3 : Mem) (q : Nat), m3.bytes.getD q 0 < 256 → m3.bytes.getD (q + 1) 0 < 256 →
        m3.bytes.getD (q + 2) 0 < 256 →
        (readPixel true 3 m3 q).1
          = m3.bytes.getD q 0 * 65536 + m3.bytes.getD (q + 1) 0 * 256 + m3.bytes.getD (q + 2) 0
        ∧ (readPixel false 3 m3 q).1
          = m3.bytes.getD q 0 + m3.bytes.getD (q + 1) 0 * 256
            + m3.bytes.getD (q + 2) 0 * 65536) := by
  refine ⟨?_, ?_, ?_⟩
  · rw [readPixel_fst, writePixel_bytes, loadSample_storeBytes be bpp _ p v hb hp,
      Nat.mod_eq_of_lt hv]
  · intro m3 q u hq
    have h0 : q < m3.bytes.length := by omega
    have h1 : q + 1 < m3.bytes.length := by omega
    have h2 : q + 2 < m3.bytes.length := by omega
    refine ⟨?_, ?_, ?_, ?_, ?_, ?_⟩ <;>
      simp only [writePixel, Mem.store, Bool.false_eq_true, ↓reduceIte, getD_set,
        List.length_set, and_255, h0, h1, h2, and_true, true_and, if_true, Nat.mod_mod] <;>
      split_ifs <;> first | rfl | omega
  · intro m3 q h0 h1 h2
    simp only [readPixel, Mem.load, Bool.false_eq_true, ↓reduceIte]
    exact ⟨assemble3_be _ _ _ h1 h2, assemble3_le _ _ _ h0 h1⟩

/-- Witness of C9: the 24-bit sample `0x123456` stored big-endian at offset 1. -/
theorem sample_round_trip_witness :
    (writePixel true 3 { bytes := [0, 0, 0, 0, 0], log := [] } 1 0x123456).bytes
      = [0, 0x12, 0x34, 0x56, 0]
    ∧ (readPixel true 3
        (writePixel true 3 { bytes := [0, 0, 0, 0, 0], log := [] } 1 0x123456) 1).1
      = 0x123456 :=
  ⟨by decide,
    (sample_round_trip true 3 { bytes := [0, 0, 0, 0, 0], log := [] } 1 0x123456
      (by decide) (by decide) (by decide)).1⟩

/-- C10: remapping is idempotent. In a 4-byte format whose `unpack` undoes
`pack` on 8-bit colors, a second `remapImageColors` with the same non-empty
palette leaves the remapped buffer as it is, also when the palette holds
entries of equal RGB and different alpha. -/
theorem remap_idempotent (be : Bool) (s : Surface) (P : List Color)
    (hwf : s.wellFormed) (h4 : s.format.BytesPerPixel = 4)
    (hinv : ∀ c : Color, c.valid →
      SDL_GetRGBA (SDL_MapRGBA s.format c.r c.g c.b c.a) s.format = c)
    (hne : P ≠ []) (hP : ∀ c ∈ P, c.valid) :
    remapImageColors be (remapImageColors be s P P.length) P P.length
      = remapImageColors be s P P.length := by
  have hlen := remap_length be s P P.length hwf.1
  have hwf' : (remapImageColors be s P P.length).wellFormed :=
    ⟨hwf.1, hwf.2.1, hlen.trans hwf.2.2⟩
  have hbytes : (remapRun be (remapImageColors be s P P.length) P P.length).bytes
      = (remapRun be s P P.length).bytes := by
    apply list_ext_getD
    · exact remap_length be (remapImageColors be s P P.length) P P.length hwf.1
    · intro q
      by_cases hq : ∃ yx ∈ pixelCoords s, inPixel s yx q
      · obtain ⟨yx, hyx, hin⟩ := hq
        obtain ⟨hy, hx⟩ := (mem_pixelCoords s yx).mp hyx
        have hb := pixel_in_bounds s hwf yx hyx
        rw [remap_getD_inPixel be (remapImageColors be s P P.length) P P.length hwf' yx hyx q hin,
          remap_getD_inPixel be s P P.length hwf yx hyx q hin]
        have hload := loadSample_remap be s P P.length hwf yx.2 yx.1 hx hy
        have hstep : pixelStep be (remapImageColors be s P P.length) P P.length
            (remapRun be s P P.length).bytes yx
            = storeBytes be s.format.BytesPerPixel (remapRun be s P P.length).bytes
                (yx.1 * s.pitch + yx.2 * s.format.BytesPerPixel)
                (mapSample s P P.length (loadSample be s.format.BytesPerPixel s.pixels
                  (yx.1 * s.pitch + yx.2 * s.format.BytesPerPixel))) := by
          show storeBytes be s.format.BytesPerPixel (remapRun be s P P.length).bytes
            (yx.1 * s.pitch + yx.2 * s.format.BytesPerPixel)
            (mapSample s P P.length (loadSample be s.format.BytesPerPixel
              (remapRun be s P P.length).bytes
              (yx.1 * s.pitch + yx.2 * s.format.BytesPerPixel))) = _
          rw [hload, h4, mapSample_mod, mapSample_idem s P hinv hne hP]
        show (pixelStep be (remapImageColors be s P P.length) P P.length
            (remapRun be s P P.length).bytes yx).getD q 0 = _
        rw [hstep]
        exact storeBytes_getD_inside be _ _ _ _ _ q hwf.1 (by rw [hlen, hwf.2.2]; exact hb)
          (by rw [hwf.2.2]; exact hb) hin.1 hin.2
      · have hout : ∀ yx ∈ pixelCoords s, ¬ inPixel s yx q := fun yx hyx hin => hq ⟨yx, hyx, hin⟩
        exact remap_getD_outside be (remapImageColors be s P P.length) P P.length hwf.1 q hout
  show ({ remapImageColors be s P P.length with
      pixels := (remapRun be (remapImageColors be s P P.length) P P.length).bytes } : Surface)
    = remapImageColors be s P P.length
  rw [hbytes]
  rfl

/-- Witness of C10: the scenario target and a palette with two entries of the
same RGB and different alpha. -/
theorem remap_idempotent_witness :
    (remapImageColors false scenarioTarget twinPalette twinPalette.length).pixels
      = [255, 0, 0, 0, 128, 255, 255, 255]
    ∧ remapImageColors false
        (remapImageColors false scenarioTarget twinPalette twinPalette.length)
        twinPalette twinPalette.length
      = remapImageColors false scenarioTarget twinPalette twinPalette.length :=
  ⟨by decide,
    remap_idempotent false scenarioTarget twinPalette (by decide) rfl rgba8888_inverse
      (by decide) (by decide)⟩

/-- C6 on a padded 24-bit palette image: `loadPalette` returns two entries, but
the second one is assembled from the bytes at offsets 4 to 7 and is not the
color of pixel `(1, 0)`, whose bytes start at offset 3. -/
theorem loadPalette_ignores_layout :
    rgbImage.wellFormed
    ∧ loadPalette mallocAlways false (some rgbImage) none 0
        = (some [⟨10, 20, 30, 255⟩, ⟨50, 60, 0, 255⟩], 2)
    ∧ decodePixel false rgbImage 0 0 = ⟨10, 20, 30, 255⟩
    ∧ decodePixel false rgbImage 1 0 = ⟨40, 50, 60, 255⟩ := by
  refine ⟨?_, ?_, ?_, ?_⟩ <;> decide

/-- C5 on a padded 24-bit image: remapped with the palette that `loadPalette`
builds from the image itself, pixel `(1, 0)` changes from `(40, 50, 60)` to
`(10, 20, 30)`. -/
theorem remap_own_palette_changes :
    rgbImage.pixels = [10, 20, 30, 40, 50, 60, 0, 0]
    ∧ Option.map (fun s => s.pixels)
        (mainCommandLine mallocAlways false (some rgbImage) (some rgbImage))
        = some [10, 20, 30, 10, 20, 30, 0, 0]
    ∧ decodePixel false rgbImage 1 0 = ⟨40, 50, 60, 255⟩
    ∧ Option.map (fun s => decodePixel false s 1 0)
        (mainCommandLine mallocAlways false (some rgbImage) (some rgbImage))
        = some ⟨10, 20, 30, 255⟩ := by
  refine ⟨?_, ?_, ?_, ?_⟩ <;> decide

/-- Counterexample to C7 as stated: with an allocator that serves a request of
zero bytes, `loadPalette` on a surface without pixels yields a palette (of
size 0) and `main` goes on to `remapImageColors`. -/
theorem loadPalette_accepts_empty :
    emptyImage.w * emptyImage.h = 0
    ∧ loadPalette mallocAlways false (some emptyImage) none 0 = (some [], 0)
    ∧ (mainCommandLine mallocAlways false (some scenarioTarget) (some emptyImage)).isSome
        = true := by
  refine ⟨?_, ?_, ?_⟩ <;> decide

/-- C7, amended: when the palette surface is absent, or the allocation of the
`w * h * 4` bytes of the palette array returns null (the only way in which an
empty surface fails), `loadPalette` leaves the caller without a palette and
`main` returns before `remapImageColors` is called. -/
theorem loadPalette_failure (malloc : Nat → Bool) (be : Bool)
    (image paletteSurface : Option Surface)
    (h : paletteSurface = none
      ∨ ∃ s, paletteSurface = some s ∧ malloc (s.w * s.h * 4) = false) :
    (loadPalette malloc be paletteSurface none 0).1 = none
    ∧ mainCommandLine malloc be image paletteSurface = none := by
  rcases h with rfl | ⟨s, rfl, hm⟩
  · refine ⟨rfl, ?_⟩
    cases image <;> rfl
  · have hl : loadPalette malloc be (some s) none 0 = (none, s.w * s.h) := by
      simp [loadPalette, hm]
    refine ⟨by rw [hl], ?_⟩
    cases image with
    | none => rfl
    | some img => simp [mainCommandLine, hl]

/-- Witness of C7, amended: an empty surface with an allocator that returns
null for zero bytes. -/
theorem loadPalette_failure_witness :
    mallocNonzero (emptyImage.w * emptyImage.h * 4) = false
    ∧ (loadPalette mallocNonzero false (some emptyImage) none 0).1 = none
    ∧ mainCommandLine mallocNonzero false (some scenarioTarget) (some emptyImage) = none :=
  ⟨by decide,
    loadPalette_failure mallocNonzero false (some scenarioTarget) (some emptyImage)
      (Or.inr ⟨emptyImage, rfl, by decide⟩)⟩

end PaletteApplier
